import Mathlib

/-!
Shallow embedding of `src/salt/keystores/mysql_keystore.py` (class `Mysql_key`).

The MySQL table `minions (minion_id, minion_key, key_type, state)` is modelled
as a list of rows in insertion order; every query the class issues is modelled
by its effect on that list.  `run_query` failures (connection loss and the
like) are outside the embedding: the success path of every query is what is
modelled, and it is the path all theorems below speak about.

Python dicts are modelled as association lists in insertion order.  CPython 2
dict iteration order is implementation defined, so the general theorems read
dicts through `dlookup` only; concrete evaluations fix the model's insertion
order and are order independent in the facts they are used for.

The regular expressions produced by `name_match` are interpreted by a small
matcher (`parseRegex` / `rmatch`) covering exactly the constructs those
patterns can contain once they stay inside the fragment the theorems quantify
over: literal characters, the dot, the class backslash-w, and a postfix star.
A pattern outside this fragment makes `name_match` return the distinguished
`PyErr.unmodeled` value, and no theorem below relies on that branch.
-/

/-- One row of the `minions` table (see the `CREATE TABLE` in the module
docstring of the source file). -/
structure Row where
  minion_id : String
  minion_key : String
  key_type : String
  state : String
deriving DecidableEq, Repr

/-- The table contents, in insertion order. -/
abbrev Store := List Row

/-- A Python dict from state name to list of minion ids, as an association
list in insertion order. -/
abbrev Buckets := List (String × List String)

/-- Python exceptions that the modelled code paths can raise. -/
inductive PyErr where
  | typeError
  | attrError
  | unmodeled
deriving DecidableEq, Repr

/-- Dict read, `d[k]` as an `Option`. -/
def dlookup : Buckets → String → Option (List String)
  | [], _ => none
  | (k, v) :: rest, key => if k = key then some v else dlookup rest key

/-- Dict read with a default. -/
def dlookupD (d : Buckets) (k : String) (dfl : List String) : List String :=
  (dlookup d k).getD dfl

/-- `d.pop(k)`: the removed value together with the remaining dict. -/
def dpop : Buckets → String → Option (List String × Buckets)
  | [], _ => none
  | (k, v) :: rest, key =>
    if k = key then some (v, rest)
    else (dpop rest key).map (fun p => (p.1, (k, v) :: p.2))

/-- `d.setdefault(k, []).append(n)` as done in `list_keys` (append to the
bucket when the key exists, otherwise create the bucket). -/
def appendEntry : Buckets → String → String → Buckets
  | [], st, n => [(st, [n])]
  | (k, v) :: rest, st, n =>
    if k = st then (k, v ++ [n]) :: rest else (k, v) :: appendEntry rest st n

/-- Python 2 `\w` without `re.UNICODE`: letters, digits, underscore. -/
def isWordChar (c : Char) : Bool :=
  c.isAlpha || c.isDigit || c == '_'

/-- `str.lower` of a name as a character list (Python 2 `str.lower` only
touches the ASCII range, as `Char.toLower` does). -/
def isortKey (s : String) : List Char :=
  s.data.map Char.toLower

/-- Python's lexicographic string comparison, on code points. -/
def lexLe : List Char → List Char → Bool
  | [], _ => true
  | _ :: _, [] => false
  | c :: cs, d :: ds =>
    if c.toNat < d.toNat then true
    else if d.toNat < c.toNat then false
    else lexLe cs ds

/-- Insert for the case-insensitive insertion sort modelling
`salt.utils.isorted` (stable, key = `str.lower`). -/
def isortInsert (x : String) : List String → List String
  | [] => [x]
  | y :: ys =>
    if lexLe (isortKey x) (isortKey y) then x :: y :: ys else y :: isortInsert x ys

/-- `salt.utils.isorted`: sort case-insensitively. -/
def isorted : List String → List String
  | [] => []
  | x :: xs => isortInsert x (isorted xs)

/-- Atoms of the regular expressions `name_match` builds: a literal
character, the dot, or the class backslash-w. -/
inductive RAtom where
  | lit (c : Char)
  | dot
  | wordc
deriving DecidableEq, Repr

/-- Does atom `a` match character `c`. -/
def amatch : RAtom → Char → Bool
  | .lit d, c => c == d
  | .dot, _ => true
  | .wordc, c => isWordChar c

/-- Characters that are regex metacharacters (beyond dot, star and
backslash, which the parser handles itself); a pattern containing one is
outside the modelled fragment. -/
def isMeta (c : Char) : Bool :=
  c == '+' || c == '?' || c == '(' || c == ')' || c == '[' || c == ']' ||
  c == '|' || c == '^' || c == '$' || c == '\x7b' || c == '\x7d'

/-- The atom a single non-escape character denotes. -/
def mkAtom (c : Char) : RAtom :=
  if c = '.' then RAtom.dot else RAtom.lit c

/-- Lexer tokens: a regex atom, or a star sign waiting to be attached to
the atom before it. -/
inductive Tok where
  | atom (a : RAtom)
  | star
deriving DecidableEq, Repr

/-- Tokenize a pattern.  The only escape in the fragment is backslash-w;
any other escape or metacharacter is outside the fragment (`none`). -/
def lexRegex : List Char → Option (List Tok)
  | [] => some []
  | c :: rest =>
    if c = '\\' then
      match rest with
      | [] => none
      | d :: rest2 =>
        if d = 'w' then (lexRegex rest2).map (fun t => Tok.atom RAtom.wordc :: t)
        else none
    else if c = '*' then (lexRegex rest).map (fun t => Tok.star :: t)
    else if isMeta c then none
    else (lexRegex rest).map (fun t => Tok.atom (mkAtom c) :: t)

/-- Attach each star to the atom before it; a star with no atom before it
(including a doubled star) is a regex error (`none`), as in `re`. -/
def groupStars : List Tok → Option (List (RAtom × Bool))
  | [] => some []
  | Tok.star :: _ => none
  | [Tok.atom a] => some [(a, false)]
  | Tok.atom a :: Tok.star :: rest => (groupStars rest).map (fun t => (a, true) :: t)
  | Tok.atom a :: Tok.atom b :: rest =>
    (groupStars (Tok.atom b :: rest)).map (fun t => (a, false) :: t)

/-- Parse a pattern into a sequence of atoms, each with a flag saying
whether it carries a postfix star.  Returns `none` outside the modelled
fragment. -/
def parseRegex (l : List Char) : Option (List (RAtom × Bool)) :=
  match lexRegex l with
  | none => none
  | some toks => groupStars toks

/-- All the ways a starred atom can consume a prefix of the string, with
continuation `k` for the rest of the regex. -/
def starLoop (am : Char → Bool) (k : List Char → Bool) : List Char → Bool
  | [] => k []
  | c :: cs => k (c :: cs) || (am c && starLoop am k cs)

/-- Anchored match of a parsed regex against a whole string; this is
`re.match` of the pattern wrapped in the anchors the source adds. -/
def rmatch : List (RAtom × Bool) → List Char → Bool
  | [], s => s.isEmpty
  | (a, false) :: rs, s =>
    match s with
    | [] => false
    | c :: cs => amatch a c && rmatch rs cs
  | (a, true) :: rs, s => starLoop (amatch a) (rmatch rs) s

/-- Full-pattern test `re.match('^' + p + '$', key)`: Python's `$`
matches at the end of the string or just before a newline that ends the
string, so a key with one trailing newline is also accepted when the
pattern matches the key without it. -/
def reFullMatch (r : List (RAtom × Bool)) (s : List Char) : Bool :=
  rmatch r s || (if s.getLast? = some '\n' then rmatch r s.dropLast else false)

/-- `str.strip('*')`: remove asterisks from both ends. -/
def stripStars (l : List Char) : List Char :=
  ((l.dropWhile (· == '*')).reverse.dropWhile (· == '*')).reverse

/-- The glob rewrite at the top of `name_match`: a pattern whose last
character is a star is stripped of asterisks at both ends and suffixed
with the two characters backslash-w and a star. -/
def globRewrite (l : List Char) : List Char :=
  if l.getLast? = some '*' then stripStars l ++ ['\\', 'w', '*'] else l

/-- `Mysql_key.list_keys` on the success path: start from the four fixed
buckets and append every row's id to the bucket of its state, creating a
fresh bucket on `KeyError` exactly as the `try/except` in the source does.
Note the source does not decorate this method with `compat`. -/
def list_keys (s : Store) : Buckets :=
  s.foldl (fun d r => appendEntry d r.state r.minion_id)
    [("acc", []), ("pre", []), ("rej", []), ("den", [])]

/-- The key renaming of the `compat` decorator.  The source iterates the
keys of its literal `trans_map` dict (order implementation defined in
CPython 2); the resulting key-to-value mapping is iteration-order
independent because the eight key names involved are pairwise distinct,
and the model fixes the literal's insertion order. -/
def compatPairs : List (String × String) :=
  [("acc", "minions"), ("rej", "minions_rejected"),
   ("pre", "minions_pre"), ("den", "minions_denied")]

/-- `compat`: for each internal code present as a key, pop it and re-insert
its value under the external name. -/
def compatD (d : Buckets) : Buckets :=
  compatPairs.foldl
    (fun d p =>
      match dpop d p.1 with
      | some (v, d') => d' ++ [(p.2, v)]
      | none => d)
    d

/-- The matching loop of `name_match` for a single (non comma-split)
pattern: for every status bucket, for every key in case-insensitive order,
record the key under its status when the anchored regex matches. -/
def buildMatched (r : List (RAtom × Bool)) (bs : Buckets) : Buckets :=
  bs.foldl
    (fun ret b =>
      (isorted b.2).foldl
        (fun ret k => if reFullMatch r k.data then appendEntry ret b.1 k else ret)
        ret)
    []

/-- `Mysql_key.name_match` (with `full=False`, the form every caller in the
source uses).  After the glob rewrite, a pattern containing a comma is
split into a list; the loop body then evaluates `'^' + match + '$'` with
`match` bound to that *list* (not to `match_item`), which raises
`TypeError` at the first key examined — so the comma branch returns the
empty dict when the listing has no keys at all and raises otherwise.
A pattern outside the modelled regex fragment yields `PyErr.unmodeled`
under the same no-keys proviso (CPython would raise its own regex error
there at the first key). -/
def name_match (pat : String) (s : Store) : Except PyErr Buckets :=
  let buckets := list_keys s
  let m := globRewrite pat.data
  if m.any (fun c => c == ',') then
    if buckets.all (fun b => b.2.isEmpty) then .ok [] else .error .typeError
  else
    match parseRegex m with
    | none => if buckets.all (fun b => b.2.isEmpty) then .ok [] else .error .unmodeled
    | some r => .ok (buildMatched r buckets)

/-- `Mysql_key.dict_match`: the source logs an error and returns the empty
dict (it is an unimplemented stub). -/
def dict_match (_ : Buckets) : Buckets := []

/-- Effect on one row of the UPDATE that `accept` issues for minion `m`.
The template is `... WHERE minion_id='{2}' AND state='{3}'`, and when
`include_rejected` is set the source appends `" OR state='{3}'"` — the
*same* placeholder: `{3}` is always formatted with `self.PEND`, and the
`self.REJ` passed as a fifth argument is never referenced by the
template.  So the executed clause is `minion_id='m' AND state='pre'`
without the flag and `minion_id='m' AND state='pre' OR state='pre'` with
it; with SQL's AND-over-OR precedence the latter hits every pending row
and no rejected row is ever touched. -/
def updAccRow (includeRejected : Bool) (m : String) (r : Row) : Row :=
  if (r.minion_id == m && r.state == "pre") || (includeRejected && r.state == "pre")
  then { r with state := "acc" } else r

/-- Effect on one row of the UPDATE that `reject` issues for minion `m`.
Same template and the same re-used `{3}` placeholder, but the format
arguments differ by flag: without `include_accepted` the source formats
`{3}` with `self.ACC` (clause `minion_id='m' AND state='acc'`, targeting
the *accepted* row of that minion); with the flag it formats `{3}` with
`self.PEND` and appends `OR state='{3}'` (clause
`minion_id='m' AND state='pre' OR state='pre'`, hitting every pending
row), while the `self.ACC` fifth argument is never referenced. -/
def updRejRow (includeAccepted : Bool) (m : String) (r : Row) : Row :=
  let st3 := if includeAccepted then "pre" else "acc"
  if (r.minion_id == m && r.state == st3) || (includeAccepted && r.state == st3)
  then { r with state := "rej" } else r

/-- Run one per-minion UPDATE after another, in list order. -/
def applyList (f : String → Row → Row) (ms : List String) (s : Store) : Store :=
  ms.foldl (fun st m => st.map (f m)) s

/-- The nested loop of `accept`/`reject`: for every state bucket of the
matches, for every minion in it, run that minion's UPDATE. -/
def runTransition (f : String → Row → Row) (mts : Buckets) (s : Store) : Store :=
  mts.foldl (fun st b => applyList f b.2 st) s

/-- `Mysql_key.accept`: resolve the matches (pattern, else supplied dict,
else empty), run the per-minion updates, and return the re-resolved
pattern matches (or `dict_match` of the supplied dict), `compat`-renamed
by the decorator. -/
def accept (pat : Option String) (matchDict : Option Buckets)
    (includeRejected : Bool) (s : Store) : Except PyErr (Store × Buckets) :=
  match pat with
  | some p =>
    match name_match p s with
    | .error e => .error e
    | .ok mts =>
      let s' := runTransition (updAccRow includeRejected) mts s
      match name_match p s' with
      | .error e => .error e
      | .ok ret => .ok (s', compatD ret)
  | none =>
    let mts := match matchDict with | some md => md | none => []
    let s' := runTransition (updAccRow includeRejected) mts s
    .ok (s', compatD (dict_match mts))

/-- `Mysql_key.reject`, mirror image of `accept`. -/
def reject (pat : Option String) (matchDict : Option Buckets)
    (includeAccepted : Bool) (s : Store) : Except PyErr (Store × Buckets) :=
  match pat with
  | some p =>
    match name_match p s with
    | .error e => .error e
    | .ok mts =>
      let s' := runTransition (updRejRow includeAccepted) mts s
      match name_match p s' with
      | .error e => .error e
      | .ok ret => .ok (s', compatD ret)
  | none =>
    let mts := match matchDict with | some md => md | none => []
    let s' := runTransition (updRejRow includeAccepted) mts s
    .ok (s', compatD (dict_match mts))

/-- The UPDATE of `accept_all` for one pending id: unconditional on state
(`SET state='acc' WHERE minion_id='key'`). -/
def updAllRow (m : String) (r : Row) : Row :=
  if r.minion_id == m then { r with state := "acc" } else r

/-- `Mysql_key.accept_all`: read the listing, update every id found in the
`pre` bucket, and return the fresh listing, `compat`-renamed by the
decorator.  The post-update store is returned alongside. -/
def accept_all (s : Store) : Store × Buckets :=
  let pend := dlookupD (list_keys s) "pre" []
  let s' := applyList updAllRow pend s
  (s', compatD (list_keys s'))

/-- Delete every row of each matched minion id, id by id. -/
def runDeletes (mts : Buckets) (s : Store) : Store :=
  mts.foldl
    (fun st b => b.2.foldl (fun st k => st.filter (fun r => !(r.minion_id == k))) st)
    s

/-- `Mysql_key.delete_key`: resolve the matches, run one DELETE per matched
id, and return the re-resolved matches.  `ret` in the source starts as
`None` and is only assigned inside the per-key loop, so when the matches
contain no key at all the final `if ret:` falls through to a bare
`raise AttributeError`. -/
def delete_key (pat : Option String) (matchDict : Option Buckets) (s : Store) :
    Except PyErr (Store × Buckets) :=
  match pat with
  | some p =>
    match name_match p s with
    | .error e => .error e
    | .ok mts =>
      let s' := runDeletes mts s
      if (mts.flatMap Prod.snd).isEmpty then .error .attrError
      else
        match name_match p s' with
        | .error e => .error e
        | .ok ret => .ok (s', compatD ret)
  | none =>
    let mts := match matchDict with | some md => md | none => []
    let s' := runDeletes mts s
    if (mts.flatMap Prod.snd).isEmpty then .error .attrError
    else .ok (s', compatD (dict_match mts))

/-! ### Dictionary lemmas -/

theorem dlookup_appendEntry (d : Buckets) (st n k : String) :
    dlookup (appendEntry d st n) k =
      if k = st then some (dlookupD d st [] ++ [n]) else dlookup d k := by
  induction d with
  | nil =>
    by_cases h : k = st
    · subst h; simp [appendEntry, dlookup, dlookupD]
    · have h' : ¬ st = k := fun h' => h h'.symm
      simp [appendEntry, dlookup, dlookupD, h, h']
  | cons b rest ih =>
    obtain ⟨k0, v0⟩ := b
    by_cases h0 : k0 = st
    · subst h0
      by_cases h : k = k0
      · subst h; simp [appendEntry, dlookup, dlookupD]
      · have h' : ¬ k0 = k := fun h' => h h'.symm
        simp [appendEntry, dlookup, dlookupD, h, h']
    · by_cases h : k0 = k
      · have h2 : ¬ k = st := fun hh => h0 (h.trans hh)
        simp [appendEntry, dlookup, dlookupD, h0, h, h2]
      · have h3 : ¬ st = k0 := fun h' => h0 h'.symm
        simp [appendEntry, dlookup, dlookupD, h0, h, ih, h3]

theorem dlookupD_appendEntry (d : Buckets) (st n k : String) :
    dlookupD (appendEntry d st n) k [] =
      if k = st then dlookupD d st [] ++ [n] else dlookupD d k [] := by
  by_cases h : k = st <;> simp [dlookupD, dlookup_appendEntry, h]

theorem isSome_dlookup_appendEntry (d : Buckets) (st n k : String) :
    (dlookup (appendEntry d st n) k).isSome ↔ (k = st ∨ (dlookup d k).isSome) := by
  rw [dlookup_appendEntry]
  by_cases h : k = st <;> simp [h]

/-! ### Sorting lemmas -/

theorem mem_isortInsert (a x : String) (l : List String) :
    a ∈ isortInsert x l ↔ a = x ∨ a ∈ l := by
  induction l with
  | nil => simp [isortInsert]
  | cons y ys ih =>
    by_cases h : lexLe (isortKey x) (isortKey y) = true
    · simp [isortInsert, h]
    · simp only [isortInsert, h, Bool.false_eq_true, if_false, List.mem_cons, ih]
      tauto

theorem mem_isorted (a : String) (l : List String) : a ∈ isorted l ↔ a ∈ l := by
  induction l with
  | nil => simp [isorted]
  | cons y ys ih => simp [isorted, mem_isortInsert, ih]

/-! ### `list_keys` characterization -/

theorem dlookupD_listKeys_fold (s : Store) (d : Buckets) (k : String) :
    dlookupD (s.foldl (fun d r => appendEntry d r.state r.minion_id) d) k []
      = dlookupD d k [] ++ (s.filter (fun r => r.state == k)).map Row.minion_id := by
  induction s generalizing d with
  | nil => simp
  | cons r s ih =>
    rw [List.foldl_cons, ih, dlookupD_appendEntry]
    by_cases h : k = r.state
    · simp [h.symm, List.filter_cons]
    · have : ¬ (r.state == k) = true := by
        simp only [beq_iff_eq]; exact fun h' => h h'.symm
      simp [h, List.filter_cons, this]

theorem dlookupD_init (k : String) :
    dlookupD [("acc", []), ("pre", []), ("rej", []), ("den", [])] k [] = [] := by
  by_cases h1 : "acc" = k <;> by_cases h2 : "pre" = k <;> by_cases h3 : "rej" = k <;>
    by_cases h4 : "den" = k <;> simp [dlookupD, dlookup, h1, h2, h3, h4]

theorem dlookupD_list_keys (s : Store) (k : String) :
    dlookupD (list_keys s) k [] = (s.filter (fun r => r.state == k)).map Row.minion_id := by
  rw [list_keys, dlookupD_listKeys_fold, dlookupD_init, List.nil_append]

theorem isSome_dlookup_listKeys_fold (s : Store) (d : Buckets) (k : String) :
    (dlookup (s.foldl (fun d r => appendEntry d r.state r.minion_id) d) k).isSome
      ↔ ((dlookup d k).isSome ∨ ∃ r ∈ s, r.state = k) := by
  induction s generalizing d with
  | nil => simp
  | cons r s ih =>
    rw [List.foldl_cons, ih, isSome_dlookup_appendEntry]
    constructor
    · rintro (⟨h | h⟩ | ⟨r', hr', h⟩)
      · exact Or.inr ⟨r, List.mem_cons_self r s, h.symm⟩
      · exact Or.inl h
      · exact Or.inr ⟨r', List.mem_cons_of_mem r hr', h⟩
    · rintro (h | ⟨r', hr', h⟩)
      · exact Or.inl (Or.inr h)
      · rcases List.mem_cons.mp hr' with h' | h'
        · subst h'; exact Or.inl (Or.inl h.symm)
        · exact Or.inr ⟨r', h', h⟩

theorem isSome_dlookup_list_keys (s : Store) (k : String) :
    (dlookup (list_keys s) k).isSome ↔ ((dlookup
      [("acc", []), ("pre", []), ("rej", []), ("den", [])] k).isSome ∨ ∃ r ∈ s, r.state = k) :=
  isSome_dlookup_listKeys_fold s _ k

/-! ### The listing has pairwise distinct keys -/

theorem keys_appendEntry (d : Buckets) (st n : String) :
    (appendEntry d st n).map Prod.fst =
      if st ∈ d.map Prod.fst then d.map Prod.fst else d.map Prod.fst ++ [st] := by
  induction d with
  | nil => simp [appendEntry]
  | cons b rest ih =>
    obtain ⟨k0, v0⟩ := b
    by_cases h0 : k0 = st
    · subst h0; simp [appendEntry]
    · have h1 : ¬ st = k0 := fun h => h0 h.symm
      by_cases h2 : st ∈ rest.map Prod.fst <;>
        simp [appendEntry, h0, h1, h2, ih]

theorem nodup_keys_appendEntry (d : Buckets) (st n : String)
    (h : (d.map Prod.fst).Nodup) : ((appendEntry d st n).map Prod.fst).Nodup := by
  rw [keys_appendEntry]
  by_cases h2 : st ∈ d.map Prod.fst
  · simpa [h2]
  · simp only [h2, if_false]
    exact List.Nodup.append h (List.nodup_singleton st) (by simpa using h2)

theorem nodup_keys_list_keys (s : Store) : ((list_keys s).map Prod.fst).Nodup := by
  rw [list_keys]
  have base : (([("acc", []), ("pre", []), ("rej", []), ("den", [])] : Buckets).map
      Prod.fst).Nodup := by decide
  generalize ([("acc", []), ("pre", []), ("rej", []), ("den", [])] : Buckets) = d at base ⊢
  induction s generalizing d with
  | nil => exact base
  | cons r s ih => exact ih _ (nodup_keys_appendEntry _ _ _ base)

/-! ### Filtering an association list with distinct keys -/

theorem filter_key_of_not_mem (d : Buckets) (k : String)
    (h : k ∉ d.map Prod.fst) : d.filter (fun b => b.1 == k) = [] := by
  rw [List.filter_eq_nil]
  intro b hb
  simp only [beq_iff_eq]
  intro he
  exact h (he ▸ List.mem_map_of_mem Prod.fst hb)

theorem filter_key_nodup (d : Buckets) (k : String) (h : (d.map Prod.fst).Nodup) :
    d.filter (fun b => b.1 == k) =
      match dlookup d k with
      | some v => [(k, v)]
      | none => [] := by
  induction d with
  | nil => simp [dlookup]
  | cons b rest ih =>
    obtain ⟨k0, v0⟩ := b
    simp only [List.map_cons, List.nodup_cons] at h
    by_cases h0 : k0 = k
    · subst h0
      rw [List.filter_cons_of_pos (by simp), filter_key_of_not_mem rest k0 h.1]
      simp [dlookup]
    · rw [List.filter_cons_of_neg (by simpa using h0), ih h.2]
      simp [dlookup, h0]

/-! ### `buildMatched` characterization -/

theorem foldIf_lookup (r : List (RAtom × Bool)) (st' : String) (keys : List String)
    (ret : Buckets) (k : String) :
    dlookupD (keys.foldl
        (fun ret n => if reFullMatch r n.data then appendEntry ret st' n else ret) ret) k []
      = dlookupD ret k [] ++
        (if k = st' then keys.filter (fun n => reFullMatch r n.data) else []) := by
  induction keys generalizing ret with
  | nil => simp
  | cons n keys ih =>
    rw [List.foldl_cons]
    by_cases hm : reFullMatch r n.data
    · rw [if_pos hm, ih, dlookupD_appendEntry]
      by_cases hk : k = st'
      · simp [hk, List.filter_cons, hm]
      · simp [hk]
    · rw [if_neg hm, ih]
      by_cases hk : k = st' <;> simp [hk, List.filter_cons, hm]

theorem buildMatched_fold_lookup (r : List (RAtom × Bool)) (bs : Buckets)
    (ret : Buckets) (k : String) :
    dlookupD (bs.foldl
        (fun ret b => (isorted b.2).foldl
          (fun ret n => if reFullMatch r n.data then appendEntry ret b.1 n else ret) ret) ret) k []
      = dlookupD ret k [] ++
        (bs.filter (fun b => b.1 == k)).flatMap
          (fun b => (isorted b.2).filter (fun n => reFullMatch r n.data)) := by
  induction bs generalizing ret with
  | nil => simp
  | cons b bs ih =>
    rw [List.foldl_cons, ih, foldIf_lookup, List.filter_cons]
    by_cases hk : k = b.1
    · have : (b.1 == k) = true := by simp [hk]
      simp [this, hk, List.append_assoc]
    · have : ¬ (b.1 == k) = true := by simp; exact fun h => hk h.symm
      simp [this, hk]

theorem buildMatched_lookup (r : List (RAtom × Bool)) (bs : Buckets)
    (h : (bs.map Prod.fst).Nodup) (k : String) :
    dlookupD (buildMatched r bs) k []
      = (isorted (dlookupD bs k [])).filter (fun n => reFullMatch r n.data) := by
  rw [buildMatched, buildMatched_fold_lookup, filter_key_nodup bs k h]
  cases hl : dlookup bs k with
  | none => simp [dlookupD, dlookup, hl, isorted]
  | some v => simp [dlookupD, dlookup, hl]

/-- On a pattern that comma-splitting leaves alone and the regex model
parses, `name_match` succeeds with the matching loop's dict. -/
theorem name_match_single (p : String) (s : Store)
    (hc : (globRewrite p.data).any (fun c => c == ',') = false)
    (r : List (RAtom × Bool)) (hp : parseRegex (globRewrite p.data) = some r) :
    name_match p s = .ok (buildMatched r (list_keys s)) := by
  rw [name_match]
  simp only [hc, hp, Bool.false_eq_true, if_false]

/-- Membership in a bucket of a successful single-pattern `name_match`:
exactly the candidates of that state whose name the regex matches. -/
theorem name_match_single_mem (p : String) (s : Store)
    (hc : (globRewrite p.data).any (fun c => c == ',') = false)
    (r : List (RAtom × Bool)) (hp : parseRegex (globRewrite p.data) = some r)
    (st name : String) :
    name ∈ dlookupD (buildMatched r (list_keys s)) st []
      ↔ name ∈ dlookupD (list_keys s) st [] ∧ reFullMatch r name.data = true := by
  rw [buildMatched_lookup r _ (nodup_keys_list_keys s) st]
  simp [List.mem_filter, mem_isorted]

/-! ### Word-character facts -/

theorem ne_of_word (c d : Char) (hc : isWordChar c = true) (hd : isWordChar d = false) :
    c ≠ d := fun h => by rw [h, hd] at hc; exact Bool.false_ne_true hc

theorem isMeta_eq_false_of_word (c : Char) (hc : isWordChar c = true) :
    isMeta c = false := by
  by_contra hm
  rw [Bool.not_eq_false] at hm
  simp only [isMeta, Bool.or_eq_true, beq_iff_eq] at hm
  rcases hm with ((((((((((h | h) | h) | h) | h) | h) | h) | h) | h) | h) | h) <;>
    (subst h; exact absurd hc (by decide))

theorem no_comma_of_word (l : List Char) (h : l.all isWordChar = true) :
    l.any (fun c => c == ',') = false := by
  rw [← Bool.not_eq_true, List.any_eq_true]
  rintro ⟨c, hc, he⟩
  rw [beq_iff_eq] at he
  subst he
  exact absurd ((List.all_eq_true.mp h) ',' hc) (by decide)

/-! ### Parsing the patterns inside the modelled fragment -/

theorem lexRegex_cons_word (c : Char) (t : List Char) (hbs : c ≠ '\\')
    (hst : c ≠ '*') (hm : isMeta c = false) :
    lexRegex (c :: t) = (lexRegex t).map (fun ts => Tok.atom (mkAtom c) :: ts) := by
  rw [lexRegex.eq_def]
  simp only [if_neg hbs, if_neg hst, hm, Bool.false_eq_true, if_false]

theorem groupStars_cons_atom_atom (a b : RAtom) (rest : List Tok) :
    groupStars (Tok.atom a :: Tok.atom b :: rest)
      = (groupStars (Tok.atom b :: rest)).map (fun t => (a, false) :: t) := rfl

theorem groupStars_cons_atom_star (a : RAtom) (rest : List Tok) :
    groupStars (Tok.atom a :: Tok.star :: rest)
      = (groupStars rest).map (fun t => (a, true) :: t) := rfl

theorem lexRegex_lits (l : List Char) (h : l.all isWordChar = true) :
    lexRegex l = some (l.map (fun c => Tok.atom (RAtom.lit c))) := by
  induction l with
  | nil => rfl
  | cons c t ih =>
    have hc : isWordChar c = true := (List.all_eq_true.mp h) c (List.mem_cons_self c t)
    have ht : t.all isWordChar = true := by
      rw [List.all_cons, Bool.and_eq_true] at h; exact h.2
    have hbs : c ≠ '\\' := ne_of_word c '\\' hc (by decide)
    have hst : c ≠ '*' := ne_of_word c '*' hc (by decide)
    have hdot : c ≠ '.' := ne_of_word c '.' hc (by decide)
    have hm : isMeta c = false := isMeta_eq_false_of_word c hc
    rw [lexRegex_cons_word c t hbs hst hm, ih ht]
    simp [mkAtom, if_neg hdot]

theorem lexRegex_lits_wstar (w : List Char) (h : w.all isWordChar = true) :
    lexRegex (w ++ ['\\', 'w', '*'])
      = some (w.map (fun c => Tok.atom (RAtom.lit c)) ++ [Tok.atom RAtom.wordc, Tok.star]) := by
  induction w with
  | nil => rfl
  | cons c t ih =>
    have hc : isWordChar c = true := (List.all_eq_true.mp h) c (List.mem_cons_self c t)
    have ht : t.all isWordChar = true := by
      rw [List.all_cons, Bool.and_eq_true] at h; exact h.2
    have hbs : c ≠ '\\' := ne_of_word c '\\' hc (by decide)
    have hst : c ≠ '*' := ne_of_word c '*' hc (by decide)
    have hdot : c ≠ '.' := ne_of_word c '.' hc (by decide)
    have hm : isMeta c = false := isMeta_eq_false_of_word c hc
    rw [List.cons_append, lexRegex_cons_word c _ hbs hst hm, ih ht]
    simp [mkAtom, if_neg hdot]

theorem groupStars_atoms (l : List Char) :
    groupStars (l.map (fun c => Tok.atom (RAtom.lit c)))
      = some (l.map (fun c => (RAtom.lit c, false))) := by
  induction l with
  | nil => rfl
  | cons c t ih =>
    cases t with
    | nil => rfl
    | cons d t' =>
      simp only [List.map_cons] at ih ⊢
      rw [groupStars_cons_atom_atom, ih]
      simp

theorem groupStars_atoms_wstar (l : List Char) :
    groupStars (l.map (fun c => Tok.atom (RAtom.lit c)) ++ [Tok.atom RAtom.wordc, Tok.star])
      = some (l.map (fun c => (RAtom.lit c, false)) ++ [(RAtom.wordc, true)]) := by
  induction l with
  | nil => rfl
  | cons c t ih =>
    cases t with
    | nil =>
      simp only [List.map_cons, List.map_nil, List.nil_append, List.cons_append]
      rw [groupStars_cons_atom_atom, groupStars_cons_atom_star]
      rfl
    | cons d t' =>
      simp only [List.map_cons, List.cons_append] at ih ⊢
      rw [groupStars_cons_atom_atom, ih]
      simp

theorem parseRegex_lits (l : List Char) (h : l.all isWordChar = true) :
    parseRegex l = some (l.map (fun c => (RAtom.lit c, false))) := by
  simp only [parseRegex, lexRegex_lits l h, groupStars_atoms]

theorem parseRegex_lits_wstar (w : List Char) (h : w.all isWordChar = true) :
    parseRegex (w ++ ['\\', 'w', '*'])
      = some (w.map (fun c => (RAtom.lit c, false)) ++ [(RAtom.wordc, true)]) := by
  simp only [parseRegex, lexRegex_lits_wstar w h, groupStars_atoms_wstar]

/-! ### Matching the two regex shapes the claims use -/

theorem rmatch_nil_eq (s : List Char) : rmatch [] s = s.isEmpty := rfl

theorem starLoop_all (am : Char → Bool) (s : List Char) :
    starLoop am (fun t => t.isEmpty) s = s.all am := by
  induction s with
  | nil => rfl
  | cons c cs ih => simp [starLoop, ih]

theorem rmatch_wordc_star (s : List Char) :
    rmatch [(RAtom.wordc, true)] s = s.all isWordChar := by
  have h1 : rmatch [] = (fun t : List Char => t.isEmpty) := funext fun t => rfl
  have h2 : amatch RAtom.wordc = isWordChar := funext fun c => rfl
  show starLoop (amatch RAtom.wordc) (rmatch []) s = s.all isWordChar
  rw [h1, h2, starLoop_all]

theorem rmatch_lits (l s : List Char) :
    rmatch (l.map (fun c => (RAtom.lit c, false))) s = true ↔ s = l := by
  induction l generalizing s with
  | nil =>
    rw [List.map_nil, rmatch_nil_eq]
    cases s <;> simp
  | cons c t ih =>
    cases s with
    | nil => simp [rmatch]
    | cons d s' => simp [rmatch, amatch, ih]

theorem rmatch_cons_nostar (a : RAtom) (rs : List (RAtom × Bool)) (d : Char)
    (s : List Char) : rmatch ((a, false) :: rs) (d :: s) = (amatch a d && rmatch rs s) := rfl

theorem rmatch_cons_nostar_nil (a : RAtom) (rs : List (RAtom × Bool)) :
    rmatch ((a, false) :: rs) [] = false := rfl

theorem isPrefixOf_cons_cons (c d : Char) (t s : List Char) :
    (c :: t).isPrefixOf (d :: s) = (c == d && t.isPrefixOf s) := rfl

theorem rmatch_lits_wstar (w s : List Char) :
    rmatch (w.map (fun c => (RAtom.lit c, false)) ++ [(RAtom.wordc, true)]) s = true
      ↔ (w.isPrefixOf s = true ∧ (s.drop w.length).all isWordChar = true) := by
  induction w generalizing s with
  | nil =>
    rw [List.map_nil, List.nil_append, rmatch_wordc_star]
    simp [List.isPrefixOf]
  | cons c t ih =>
    cases s with
    | nil => simp [rmatch_cons_nostar_nil, List.isPrefixOf]
    | cons d s' =>
      simp only [List.map_cons, List.cons_append, rmatch_cons_nostar, isPrefixOf_cons_cons,
        List.length_cons, List.drop_succ_cons, Bool.and_eq_true, ih s', amatch, beq_iff_eq]
      constructor
      · rintro ⟨h1, h2, h3⟩; exact ⟨⟨h1.symm, h2⟩, h3⟩
      · rintro ⟨⟨h1, h2⟩, h3⟩; exact ⟨h1.symm, h2, h3⟩

/-! ### The dollar anchor on the shapes the claims use -/

theorem eq_concat_iff (s t : List Char) (c : Char) :
    s = t ++ [c] ↔ (s.getLast? = some c ∧ s.dropLast = t) := by
  constructor
  · rintro rfl
    exact ⟨List.getLast?_concat t, List.dropLast_concat⟩
  · rintro ⟨h1, h2⟩
    have hne : s ≠ [] := by rintro rfl; simp at h1
    rw [List.getLast?_eq_getLast s hne, Option.some.injEq] at h1
    rw [← h2, ← h1]
    exact (List.dropLast_append_getLast hne).symm

theorem reFullMatch_lits (p s : List Char) :
    reFullMatch (p.map (fun c => (RAtom.lit c, false))) s = true
      ↔ (s = p ∨ s = p ++ ['\n']) := by
  rw [reFullMatch, Bool.or_eq_true, rmatch_lits]
  constructor
  · rintro (h | h)
    · exact Or.inl h
    · by_cases hl : s.getLast? = some '\n'
      · rw [if_pos hl, rmatch_lits] at h
        exact Or.inr ((eq_concat_iff s p '\n').mpr ⟨hl, h⟩)
      · rw [if_neg hl] at h
        exact absurd h Bool.false_ne_true
  · rintro (h | h)
    · exact Or.inl h
    · right
      obtain ⟨h1, h2⟩ := (eq_concat_iff s p '\n').mp h
      rw [if_pos h1, rmatch_lits]
      exact h2

theorem reFullMatch_lits_wstar (w s : List Char) :
    reFullMatch (w.map (fun c => (RAtom.lit c, false)) ++ [(RAtom.wordc, true)]) s = true
      ↔ ((w.isPrefixOf s = true ∧ (s.drop w.length).all isWordChar = true)
          ∨ (s.getLast? = some '\n'
              ∧ w.isPrefixOf s.dropLast = true
              ∧ (s.dropLast.drop w.length).all isWordChar = true)) := by
  rw [reFullMatch, Bool.or_eq_true, rmatch_lits_wstar]
  constructor
  · rintro (h | h)
    · exact Or.inl h
    · by_cases hl : s.getLast? = some '\n'
      · rw [if_pos hl, rmatch_lits_wstar] at h
        exact Or.inr ⟨hl, h.1, h.2⟩
      · rw [if_neg hl] at h
        exact absurd h Bool.false_ne_true
  · rintro (h | ⟨h1, h2, h3⟩)
    · exact Or.inl h
    · right
      rw [if_pos h1, rmatch_lits_wstar]
      exact ⟨h2, h3⟩

/-! ### The glob rewrite on the shapes the claims use -/

theorem dropWhile_star_of_word (l : List Char) (h : l.all isWordChar = true) :
    l.dropWhile (· == '*') = l := by
  cases l with
  | nil => rfl
  | cons c t =>
    have hc : isWordChar c = true := (List.all_eq_true.mp h) c (List.mem_cons_self c t)
    have : (c == '*') = false := by
      rw [beq_eq_false_iff_ne]; exact ne_of_word c '*' hc (by decide)
    simp [List.dropWhile_cons, this]

theorem stripStars_word_concat (w : List Char) (h : w.all isWordChar = true) :
    stripStars (w ++ ['*']) = w := by
  cases w with
  | nil => rfl
  | cons c t =>
    have hc : isWordChar c = true := (List.all_eq_true.mp h) c (List.mem_cons_self c t)
    have hcs : (c == '*') = false := by
      rw [beq_eq_false_iff_ne]; exact ne_of_word c '*' hc (by decide)
    have hrev : ((t.reverse ++ [c]).all isWordChar) = true := by
      rw [← List.reverse_cons, List.all_reverse]; exact h
    rw [stripStars, List.cons_append, List.dropWhile_cons]
    simp only [hcs, Bool.false_eq_true, if_false]
    rw [List.reverse_cons, List.reverse_append]
    simp only [List.reverse_cons, List.reverse_nil, List.nil_append, List.singleton_append,
      List.cons_append]
    rw [List.dropWhile_cons]
    simp only [beq_self_eq_true, if_true]
    rw [dropWhile_star_of_word _ hrev, ← List.reverse_cons, List.reverse_reverse]

theorem globRewrite_word (l : List Char) (h : l.all isWordChar = true) :
    globRewrite l = l := by
  rw [globRewrite, if_neg]
  intro heq
  exact absurd ((List.all_eq_true.mp h) '*' (List.mem_of_mem_getLast? heq)) (by decide)

theorem globRewrite_word_star (w : List Char) (h : w.all isWordChar = true) :
    globRewrite (w ++ ['*']) = w ++ ['\\', 'w', '*'] := by
  rw [globRewrite, if_pos (List.getLast?_concat w), stripStars_word_concat w h]

theorem no_comma_wstar (w : List Char) (h : w.all isWordChar = true) :
    (w ++ ['\\', 'w', '*']).any (fun c => c == ',') = false := by
  rw [List.any_append, no_comma_of_word w h, Bool.false_or]
  rfl

/-! ### `name_match` on the two word-character pattern shapes -/

theorem name_match_word (p : String) (s : Store) (h : p.data.all isWordChar = true) :
    name_match p s
      = .ok (buildMatched (p.data.map (fun c => (RAtom.lit c, false))) (list_keys s)) := by
  apply name_match_single
  · rw [globRewrite_word p.data h]; exact no_comma_of_word p.data h
  · rw [globRewrite_word p.data h]; exact parseRegex_lits p.data h

theorem name_match_word_mem (p : String) (s : Store) (h : p.data.all isWordChar = true)
    (st name : String) :
    name ∈ dlookupD (buildMatched
        (p.data.map (fun c => (RAtom.lit c, false))) (list_keys s)) st []
      ↔ name ∈ dlookupD (list_keys s) st [] ∧ (name = p ∨ name = p ++ "\n") := by
  rw [buildMatched_lookup _ _ (nodup_keys_list_keys s) st]
  have e1 : (name = p) ↔ name.data = p.data := String.ext_iff
  have e2 : (name = p ++ "\n") ↔ name.data = p.data ++ ['\n'] := by
    constructor
    · intro hq; rw [hq]; rfl
    · intro hq; exact String.ext_iff.mpr hq
  simp only [List.mem_filter, mem_isorted, reFullMatch_lits, e1, e2]

theorem name_match_glob (w : String) (s : Store) (h : w.data.all isWordChar = true) :
    name_match (w ++ "*") s
      = .ok (buildMatched
          (w.data.map (fun c => (RAtom.lit c, false)) ++ [(RAtom.wordc, true)])
          (list_keys s)) := by
  have hdata : (w ++ "*").data = w.data ++ ['*'] := rfl
  apply name_match_single
  · rw [hdata, globRewrite_word_star w.data h]; exact no_comma_wstar w.data h
  · rw [hdata, globRewrite_word_star w.data h]; exact parseRegex_lits_wstar w.data h

theorem name_match_glob_mem (w : String) (s : Store) (h : w.data.all isWordChar = true)
    (st name : String) :
    name ∈ dlookupD (buildMatched
        (w.data.map (fun c => (RAtom.lit c, false)) ++ [(RAtom.wordc, true)])
        (list_keys s)) st []
      ↔ name ∈ dlookupD (list_keys s) st []
          ∧ ((w.data.isPrefixOf name.data = true
               ∧ (name.data.drop w.data.length).all isWordChar = true)
             ∨ (name.data.getLast? = some '\n'
               ∧ w.data.isPrefixOf name.data.dropLast = true
               ∧ (name.data.dropLast.drop w.data.length).all isWordChar = true)) := by
  rw [buildMatched_lookup _ _ (nodup_keys_list_keys s) st]
  simp only [List.mem_filter, mem_isorted, reFullMatch_lits_wstar]

/-! ### Per-minion updates -/

theorem applyList_nil (f : String → Row → Row) (s : Store) : applyList f [] s = s := rfl

theorem applyList_cons (f : String → Row → Row) (m : String) (ms : List String)
    (s : Store) : applyList f (m :: ms) s = applyList f ms (s.map (f m)) := rfl

theorem runTransition_flat (f : String → Row → Row) (d : Buckets) (s : Store) :
    runTransition f d s = applyList f (d.flatMap Prod.snd) s := by
  induction d generalizing s with
  | nil => rfl
  | cons b bs ih =>
    rw [runTransition, List.foldl_cons, List.flatMap_cons]
    show runTransition f bs (applyList f b.2 s) = _
    rw [ih, applyList, applyList, applyList, List.foldl_append]

theorem applyList_fixed (f : String → Row → Row) (ms : List String) (s : Store)
    (i : Nat) (r : Row) (hr : s[i]? = some r) (hf : ∀ m, f m r = r) :
    (applyList f ms s)[i]? = some r := by
  induction ms generalizing s with
  | nil => exact hr
  | cons m ms ih =>
    rw [applyList_cons]
    exact ih (s.map (f m)) (by rw [List.getElem?_map, hr, Option.map_some', hf m])

/-- Rows already accepted are fixed points of the `accept` UPDATE: its
executed clause only ever tests for `pre`. -/
theorem updAccRow_acc_fixed (b : Bool) (m : String) (r : Row) (h : r.state = "acc") :
    updAccRow b m r = r := by
  rw [updAccRow, if_neg]
  simp [h]

/-- Rows already rejected are fixed points of the `reject` UPDATE: its
clause tests for `acc` without the flag and for `pre` with it. -/
theorem updRejRow_rej_fixed (b : Bool) (m : String) (r : Row) (h : r.state = "rej") :
    updRejRow b m r = r := by
  cases b <;> simp [updRejRow, h]

/-- Rejected rows are also fixed points of the `accept` UPDATE, for either
flag value: the rejected state never appears in the executed clause (the
`self.REJ` format argument is unused by the template). -/
theorem updAccRow_rej_fixed (b : Bool) (m : String) (r : Row) (h : r.state = "rej") :
    updAccRow b m r = r := by
  rw [updAccRow, if_neg]
  simp [h]

theorem applyList_acc_stable (b : Bool) (ms : List String) (s : Store) (i : Nat)
    (r : Row) (hr : s[i]? = some r) (h : r.state = "acc") :
    (applyList (updAccRow b) ms s)[i]? = some r :=
  applyList_fixed _ ms s i r hr (fun m => updAccRow_acc_fixed b m r h)

/-- A rejected row is untouched by the whole `accept` UPDATE sequence,
whatever the flag value. -/
theorem applyList_rej_fixed (b : Bool) (ms : List String) (s : Store) (i : Nat)
    (r : Row) (hr : s[i]? = some r) (h : r.state = "rej") :
    (applyList (updAccRow b) ms s)[i]? = some r :=
  applyList_fixed _ ms s i r hr (fun m => updAccRow_rej_fixed b m r h)

/-- A pending row whose id is among the issued `accept` UPDATEs comes out
accepted (with the flag set, any pending row does, listed or not). -/
theorem applyList_pre_mem_to_acc (b : Bool) (ms : List String) (s : Store) (i : Nat)
    (r : Row) (hr : s[i]? = some r) (h : r.state = "pre") (hm : r.minion_id ∈ ms) :
    (applyList (updAccRow b) ms s)[i]? = some { r with state := "acc" } := by
  induction ms generalizing s with
  | nil => exact absurd hm (List.not_mem_nil _)
  | cons m ms ih =>
    rw [applyList_cons]
    by_cases hid : r.minion_id = m
    · refine applyList_acc_stable b ms _ i _ ?_ rfl
      rw [List.getElem?_map, hr, Option.map_some']
      rw [updAccRow, if_pos (by simp [hid, h])]
    · cases b with
      | true =>
        refine applyList_acc_stable true ms _ i _ ?_ rfl
        rw [List.getElem?_map, hr, Option.map_some']
        rw [updAccRow, if_pos (by simp [h])]
      | false =>
        have hm' : r.minion_id ∈ ms := by
          rcases List.mem_cons.mp hm with h' | h'
          · exact absurd h' hid
          · exact h'
        refine ih (s.map (updAccRow false m)) ?_ hm'
        rw [List.getElem?_map, hr, Option.map_some', updAccRow,
          if_neg (by simp [hid, h])]

/-- An accepted row whose id is among the issued no-flag `reject` UPDATEs
comes out rejected: the no-flag clause targets `state='acc'`. -/
theorem applyList_acc_mem_to_rej (ms : List String) (s : Store) (i : Nat)
    (r : Row) (hr : s[i]? = some r) (h : r.state = "acc") (hm : r.minion_id ∈ ms) :
    (applyList (updRejRow false) ms s)[i]? = some { r with state := "rej" } := by
  induction ms generalizing s with
  | nil => exact absurd hm (List.not_mem_nil _)
  | cons m ms ih =>
    rw [applyList_cons]
    by_cases hid : r.minion_id = m
    · refine applyList_fixed _ ms _ i _ ?_
        (fun m' => updRejRow_rej_fixed false m' _ rfl)
      have hupd : updRejRow false m r = { r with state := "rej" } := by
        simp [updRejRow, hid, h]
      rw [List.getElem?_map, hr, Option.map_some', hupd]
    · have hm' : r.minion_id ∈ ms := by
        rcases List.mem_cons.mp hm with h' | h'
        · exact absurd h' hid
        · exact h'
      have hupd : updRejRow false m r = r := by
        simp [updRejRow, hid]
      refine ih (s.map (updRejRow false m)) ?_ hm'
      rw [List.getElem?_map, hr, Option.map_some', hupd]

/-! ### Unfolding `accept` and `reject` -/

theorem accept_pat_eq (p : String) (b : Bool) (s : Store) (d d' : Buckets)
    (h1 : name_match p s = .ok d)
    (h2 : name_match p (runTransition (updAccRow b) d s) = .ok d') :
    accept (some p) none b s = .ok (runTransition (updAccRow b) d s, compatD d') := by
  simp only [accept, h1, h2]

theorem reject_pat_eq (p : String) (b : Bool) (s : Store) (d d' : Buckets)
    (h1 : name_match p s = .ok d)
    (h2 : name_match p (runTransition (updRejRow b) d s) = .ok d') :
    reject (some p) none b s = .ok (runTransition (updRejRow b) d s, compatD d') := by
  simp only [reject, h1, h2]

theorem accept_dict_eq (md : Buckets) (b : Bool) (s : Store) :
    accept none (some md) b s = .ok (runTransition (updAccRow b) md s, []) := rfl

theorem reject_dict_eq (md : Buckets) (b : Bool) (s : Store) :
    reject none (some md) b s = .ok (runTransition (updRejRow b) md s, []) := rfl

/-! ### From dict membership to a nonempty flattened target set -/

theorem dlookup_mem (d : Buckets) (k : String) (v : List String)
    (h : dlookup d k = some v) : (k, v) ∈ d := by
  induction d with
  | nil => simp [dlookup] at h
  | cons b rest ih =>
    obtain ⟨k0, v0⟩ := b
    rw [dlookup] at h
    by_cases h0 : k0 = k
    · rw [if_pos h0] at h
      obtain rfl : v0 = v := Option.some.inj h
      exact h0 ▸ List.mem_cons_self _ _
    · rw [if_neg h0] at h
      exact List.mem_cons_of_mem _ (ih h)

theorem flatMap_ne_nil_of_mem_dlookupD (d : Buckets) (k n : String)
    (h : n ∈ dlookupD d k []) : d.flatMap Prod.snd ≠ [] := by
  cases hv : dlookup d k with
  | none => rw [dlookupD, hv] at h; exact absurd h (List.not_mem_nil n)
  | some v =>
    rw [dlookupD, hv] at h
    intro hnil
    have hm : n ∈ d.flatMap Prod.snd :=
      List.mem_flatMap.mpr ⟨(k, v), dlookup_mem d k v hv, h⟩
    rw [hnil] at hm
    exact absurd hm (List.not_mem_nil n)

/-- A row of the store shows up, by id, in the listing bucket of its state. -/
theorem row_mem_listing (s : Store) (r : Row) (hr : r ∈ s) :
    r.minion_id ∈ dlookupD (list_keys s) r.state [] := by
  rw [dlookupD_list_keys]
  exact List.mem_map_of_mem Row.minion_id (List.mem_filter.mpr ⟨hr, by simp⟩)

/-! ### `accept_all` -/

theorem applyList_updAll_map (ms : List String) (s : Store) :
    applyList updAllRow ms s
      = s.map (fun r => if r.minion_id ∈ ms then { r with state := "acc" } else r) := by
  induction ms generalizing s with
  | nil =>
    rw [applyList_nil]
    simp
  | cons m ms ih =>
    rw [applyList_cons, ih, List.map_map]
    congr 1
    funext r
    by_cases hid : r.minion_id = m
    · have h1 : updAllRow m r = { r with state := "acc" } := by
        rw [updAllRow, if_pos (by simp [hid])]
      have h2 : ({ r with state := "acc" } : Row).minion_id = r.minion_id := rfl
      simp only [Function.comp_apply, h1, h2]
      by_cases h3 : r.minion_id ∈ ms <;> simp [h3, hid]
    · have h1 : updAllRow m r = r := by rw [updAllRow, if_neg (by simp [hid])]
      simp only [Function.comp_apply, h1]
      by_cases h3 : r.minion_id ∈ ms <;> simp [h3, hid]

theorem no_pre_after_accept_all (s : Store) (r' : Row)
    (h : r' ∈ (accept_all s).1) : r'.state ≠ "pre" := by
  have h' : r' ∈ applyList updAllRow (dlookupD (list_keys s) "pre" []) s := h
  rw [applyList_updAll_map] at h'
  obtain ⟨r, hr, hmap⟩ := List.mem_map.mp h'
  by_cases hm : r.minion_id ∈ dlookupD (list_keys s) "pre" []
  · rw [if_pos hm] at hmap
    rw [← hmap]
    show ("acc" : String) ≠ "pre"
    decide
  · rw [if_neg hm] at hmap
    rw [← hmap]
    intro hpre
    exact hm (hpre ▸ row_mem_listing s r hr)

theorem pre_bucket_empty_after_accept_all (s : Store) :
    dlookupD (list_keys (accept_all s).1) "pre" [] = [] := by
  rw [dlookupD_list_keys]
  have hnil : (accept_all s).1.filter (fun r => r.state == "pre") = [] := by
    rw [List.filter_eq_nil_iff]
    intro a ha
    simp only [beq_iff_eq]
    exact no_pre_after_accept_all s a ha
  rw [hnil]
  rfl

/-! ### The claims -/

/-- C1: the frame property fails in the code.  With `include_rejected` (or
`include_accepted`) set, the appended `" OR state='{3}'"` re-uses the
`{3}` placeholder, which both flagged calls format with `'pre'`, so the
executed clause is `minion_id='m' AND state='pre' OR state='pre'` — with
SQL's AND-over-OR precedence the OR branch carries no minion guard.  Here
the pattern "bob" resolves to the target set containing only "bob", yet
the *pending* row "alice", outside that target set, is flipped to
accepted by `accept` and to rejected by `reject`. -/
theorem c1_accept_frame_bug :
    (name_match "bob" [⟨"alice", "ka", "zmq", "pre"⟩, ⟨"bob", "kb", "zmq", "pre"⟩]
        = .ok [("pre", ["bob"])]
      ∧ (accept (some "bob") none true
            [⟨"alice", "ka", "zmq", "pre"⟩, ⟨"bob", "kb", "zmq", "pre"⟩]).toOption.map
          (fun pr => pr.1.map (fun r => (r.minion_id, r.state)))
          = some [("alice", "acc"), ("bob", "acc")])
    ∧ (reject (some "bob") none true
          [⟨"alice", "ka", "zmq", "pre"⟩, ⟨"bob", "kb", "zmq", "pre"⟩]).toOption.map
        (fun pr => pr.1.map (fun r => (r.minion_id, r.state)))
        = some [("alice", "rej"), ("bob", "rej")] :=
  ⟨⟨rfl, rfl⟩, rfl⟩

/-- C2: the naming translation is not applied to the full listing.
`list_keys` carries no `compat` decorator, so it returns the internal
short codes; the external key `minions_pre` is absent from its result. -/
theorem c2_list_keys_not_renamed :
    list_keys [⟨"m1", "k1", "zmq", "pre"⟩]
        = [("acc", []), ("pre", ["m1"]), ("rej", []), ("den", [])]
    ∧ dlookup (list_keys [⟨"m1", "k1", "zmq", "pre"⟩]) "minions_pre" = none :=
  ⟨rfl, rfl⟩

/-- C3: the override never happens in the code.  `accept` with
`include_rejected=True` appends `" OR state='{3}'"` and formats `{3}` with
`self.PEND` — the `self.REJ` passed as a fifth argument is never
referenced by the template — so the executed clause is
`minion_id='x' AND state='pre' OR state='pre'` and a rejected `x` is never
updated.  The claim's flag-false half holds (x stays rejected); its
flag-true half is false of the program: both calls below leave `x`
rejected and return the same rejected-bucket result. -/
theorem c3_override_noop_bug :
    accept (some "x") none false [⟨"x", "k", "zmq", "rej"⟩]
        = .ok ([⟨"x", "k", "zmq", "rej"⟩], [("minions_rejected", ["x"])])
    ∧ accept (some "x") none true [⟨"x", "k", "zmq", "rej"⟩]
        = .ok ([⟨"x", "k", "zmq", "rej"⟩], [("minions_rejected", ["x"])]) :=
  ⟨rfl, rfl⟩

/-- C4 counterexample, two independent violations of "exactly the names
with that literal prefix followed by word characters": the pattern "a.b*"
has literal prefix "a.b", yet the candidate "axb" — which does not start
with that prefix — is matched, because the dot survives into the regex as
a wildcard; and "web*" matches the candidate with a trailing newline,
whose suffix after "web" is not all word characters, because Python's `$`
also matches just before a final newline. -/
theorem c4_glob_counterexample :
    (name_match "a.b*" [⟨"axb", "k", "zmq", "pre"⟩] = .ok [("pre", ["axb"])]
      ∧ ("a.b".data.isPrefixOf "axb".data) = false)
    ∧ (name_match "web*" [⟨"web01\n", "k", "zmq", "pre"⟩] = .ok [("pre", ["web01\n"])]
      ∧ (("web01\n".data.drop "web".data.length).all isWordChar) = false) :=
  ⟨⟨rfl, rfl⟩, ⟨rfl, rfl⟩⟩

/-- C4 (amended): for a pattern `w ++ "*"` whose prefix `w` consists of
word characters only, a bucket of the result holds exactly the candidate
names of that state that — possibly after removing one trailing newline,
which Python's `$` anchor tolerates — start with `w` followed by zero or
more word characters and nothing else. -/
theorem c4_glob_semantics (w : String) (s : Store) (d : Buckets)
    (hw : w.data.all isWordChar = true)
    (h : name_match (w ++ "*") s = .ok d) (st name : String) :
    name ∈ dlookupD d st []
      ↔ name ∈ dlookupD (list_keys s) st []
        ∧ ((w.data.isPrefixOf name.data = true
             ∧ (name.data.drop w.data.length).all isWordChar = true)
           ∨ (name.data.getLast? = some '\n'
             ∧ w.data.isPrefixOf name.data.dropLast = true
             ∧ (name.data.dropLast.drop w.data.length).all isWordChar = true)) := by
  rw [name_match_glob w s hw, Except.ok.injEq] at h
  rw [← h]
  exact name_match_glob_mem w s hw st name

/-- Witness for C4 on the spec's own candidate set; "web-01" is excluded. -/
theorem c4_glob_semantics_witness :
    ("web-01" ∈ dlookupD [("pre", ["web01", "web1x"])] "pre" []
      ↔ "web-01" ∈ dlookupD (list_keys
            [⟨"web01", "k", "zmq", "pre"⟩, ⟨"web-01", "k", "zmq", "pre"⟩,
             ⟨"web1x", "k", "zmq", "pre"⟩]) "pre" []
          ∧ (("web".data.isPrefixOf "web-01".data = true
               ∧ ("web-01".data.drop "web".data.length).all isWordChar = true)
             ∨ ("web-01".data.getLast? = some '\n'
               ∧ "web".data.isPrefixOf "web-01".data.dropLast = true
               ∧ ("web-01".data.dropLast.drop "web".data.length).all isWordChar
                   = true))) :=
  c4_glob_semantics "web"
    [⟨"web01", "k", "zmq", "pre"⟩, ⟨"web-01", "k", "zmq", "pre"⟩,
     ⟨"web1x", "k", "zmq", "pre"⟩]
    [("pre", ["web01", "web1x"])] (by decide) rfl "pre" "web-01"

/-- C5 counterexample, two independent violations of "selected iff equal
to the pattern": the pattern "web0." has no trailing star, yet the
candidate "web01", unequal to it, is selected (the dot matches any
character); and the word-character pattern "web01" selects the candidate
with a trailing newline, which Python's `$` anchor tolerates. -/
theorem c5_exact_counterexample :
    (name_match "web0." [⟨"web01", "k", "zmq", "pre"⟩, ⟨"web010", "k", "zmq", "pre"⟩]
        = .ok [("pre", ["web01"])]
      ∧ ("web01" : String) ≠ "web0.")
    ∧ (name_match "web01" [⟨"web01\n", "k", "zmq", "pre"⟩]
        = .ok [("pre", ["web01\n"])]
      ∧ ("web01\n" : String) ≠ "web01") :=
  ⟨⟨rfl, by decide⟩, ⟨rfl, by decide⟩⟩

/-- C5 (amended): for a pattern consisting of word characters only (hence
without a trailing star), a bucket of the result holds exactly the
candidate names of that state equal to the pattern, or to the pattern
followed by one trailing newline (which Python's `$` anchor tolerates);
on newline-free candidates this is exact full-string equality. -/
theorem c5_exact_semantics (p : String) (s : Store) (d : Buckets)
    (hp : p.data.all isWordChar = true)
    (h : name_match p s = .ok d) (st name : String) :
    name ∈ dlookupD d st []
      ↔ name ∈ dlookupD (list_keys s) st [] ∧ (name = p ∨ name = p ++ "\n") := by
  rw [name_match_word p s hp, Except.ok.injEq] at h
  rw [← h]
  exact name_match_word_mem p s hp st name

/-- Witness for C5 on the spec's own candidate pair. -/
theorem c5_exact_semantics_witness :
    ("web01" ∈ dlookupD [("pre", ["web01"])] "pre" []
      ↔ "web01" ∈ dlookupD (list_keys
            [⟨"web01", "k", "zmq", "pre"⟩, ⟨"web010", "k", "zmq", "pre"⟩]) "pre" []
          ∧ (("web01" : String) = "web01" ∨ ("web01" : String) = "web01" ++ "\n")) :=
  c5_exact_semantics "web01"
    [⟨"web01", "k", "zmq", "pre"⟩, ⟨"web010", "k", "zmq", "pre"⟩]
    [("pre", ["web01"])] (by decide) rfl "pre" "web01"

/-- C6: a comma-separated pattern does not produce the union of the
sub-pattern matches; the loop body concatenates the split *list* into the
regex (`'^' + match` with `match` a list), raising `TypeError` at the
first key examined.  Only a completely empty listing avoids the raise. -/
theorem c6_comma_type_error :
    name_match "web01,web02" [⟨"web01", "k", "zmq", "pre"⟩] = .error .typeError
    ∧ name_match "web01,web02" ([] : Store) = .ok [] :=
  ⟨rfl, rfl⟩

/-- C7 counterexample: with a supplied mapping the transition is applied,
but the returned value is the empty dict produced by the `dict_match`
stub, not a passthrough of the nonempty supplied mapping. -/
theorem c7_mapping_counterexample :
    accept none (some [("pre", ["m1"])]) false [⟨"m1", "k", "zmq", "pre"⟩]
        = .ok ([⟨"m1", "k", "zmq", "acc"⟩], [])
    ∧ ([("pre", ["m1"])] : Buckets) ≠ [] :=
  ⟨rfl, by decide⟩

/-- C7 (amended): `accept`/`reject` with a pre-resolved mapping apply the
per-identity UPDATEs to the identities listed in the mapping — for
`accept` a listed pending row comes out accepted (for either flag value);
for `reject` without its flag, whose clause targets `state='acc'`, a
listed accepted row comes out rejected — and both return the empty
mapping, the result of the unimplemented `dict_match` stub, instead of a
passthrough of the supplied mapping. -/
theorem c7_mapping_semantics (md : Buckets) (b : Bool) (s sa sr : Store)
    (da dr : Buckets)
    (ha : accept none (some md) b s = .ok (sa, da))
    (hrj : reject none (some md) false s = .ok (sr, dr)) :
    (da = [] ∧ dr = [])
    ∧ ∀ (i : Nat) (r : Row), s[i]? = some r → r.minion_id ∈ md.flatMap Prod.snd →
        (r.state = "pre" → sa[i]?.map Row.state = some "acc")
        ∧ (r.state = "acc" → sr[i]?.map Row.state = some "rej") := by
  rw [accept_dict_eq, Except.ok.injEq, Prod.mk.injEq] at ha
  rw [reject_dict_eq, Except.ok.injEq, Prod.mk.injEq] at hrj
  refine ⟨⟨ha.2.symm, hrj.2.symm⟩, ?_⟩
  intro i r hri hmem
  constructor
  · intro hpre
    rw [← ha.1, runTransition_flat,
      applyList_pre_mem_to_acc b _ s i r hri hpre hmem, Option.map_some']
  · intro hacc
    rw [← hrj.1, runTransition_flat,
      applyList_acc_mem_to_rej _ s i r hri hacc hmem, Option.map_some']

/-- Witness for C7 at a two-row store (one pending, one accepted) and the
mapping listing both. -/
theorem c7_mapping_semantics_witness :
    (([] : Buckets) = [] ∧ ([] : Buckets) = [])
    ∧ (([(⟨"m1", "k", "zmq", "acc"⟩ : Row), ⟨"m2", "k", "zmq", "acc"⟩] : Store)[0]?.map
          Row.state = some "acc"
        ∧ ([(⟨"m1", "k", "zmq", "pre"⟩ : Row), ⟨"m2", "k", "zmq", "rej"⟩] : Store)[1]?.map
            Row.state = some "rej") :=
  ⟨(c7_mapping_semantics [("pre", ["m1"]), ("acc", ["m2"])] false
      [⟨"m1", "k", "zmq", "pre"⟩, ⟨"m2", "k", "zmq", "acc"⟩]
      [⟨"m1", "k", "zmq", "acc"⟩, ⟨"m2", "k", "zmq", "acc"⟩]
      [⟨"m1", "k", "zmq", "pre"⟩, ⟨"m2", "k", "zmq", "rej"⟩] [] [] rfl rfl).1,
   ⟨((c7_mapping_semantics [("pre", ["m1"]), ("acc", ["m2"])] false
        [⟨"m1", "k", "zmq", "pre"⟩, ⟨"m2", "k", "zmq", "acc"⟩]
        [⟨"m1", "k", "zmq", "acc"⟩, ⟨"m2", "k", "zmq", "acc"⟩]
        [⟨"m1", "k", "zmq", "pre"⟩, ⟨"m2", "k", "zmq", "rej"⟩] [] [] rfl rfl).2
       0 ⟨"m1", "k", "zmq", "pre"⟩ rfl (by decide)).1 rfl,
    ((c7_mapping_semantics [("pre", ["m1"]), ("acc", ["m2"])] false
        [⟨"m1", "k", "zmq", "pre"⟩, ⟨"m2", "k", "zmq", "acc"⟩]
        [⟨"m1", "k", "zmq", "acc"⟩, ⟨"m2", "k", "zmq", "acc"⟩]
        [⟨"m1", "k", "zmq", "pre"⟩, ⟨"m2", "k", "zmq", "rej"⟩] [] [] rfl rfl).2
       1 ⟨"m2", "k", "zmq", "acc"⟩ rfl (by decide)).2 rfl⟩⟩

/-- C8: a delete whose pattern (or mapping) matches zero identities is not
"reported, not fatal": `ret` stays `None` because no per-key query ever
runs, and the final `if ret:` falls through to `raise AttributeError`. -/
theorem c8_delete_zero_match_raises :
    delete_key (some "nope") none [⟨"web01", "k", "zmq", "acc"⟩] = .error .attrError
    ∧ delete_key none (some []) [⟨"web01", "k", "zmq", "acc"⟩] = .error .attrError :=
  ⟨rfl, rfl⟩

/-- C9: `accept_all` is idempotent on the resulting listing: after the
first call the `pre` bucket is empty, so the second call issues no UPDATE
and returns the same listing. -/
theorem c9_accept_all_idem (s : Store) :
    (accept_all ((accept_all s).1)).2 = (accept_all s).2 := by
  have h2 : accept_all ((accept_all s).1)
      = ((accept_all s).1, compatD (list_keys (accept_all s).1)) := by
    show (applyList updAllRow (dlookupD (list_keys (accept_all s).1) "pre" [])
            (accept_all s).1,
          compatD (list_keys (applyList updAllRow
            (dlookupD (list_keys (accept_all s).1) "pre" []) (accept_all s).1)))
        = ((accept_all s).1, compatD (list_keys (accept_all s).1))
    rw [pre_bucket_empty_after_accept_all, applyList_nil]
  rw [h2]
  rfl

/-- C10: on a successful read, the listing has the four fixed state keys;
every bucket is exactly the ids of the rows in that state (so empty when
none is); and a row with a state outside the four does not break the
listing — it lands in a bucket freshly keyed by that unknown state. -/
theorem c10_listing_shape (s : Store) :
    ((dlookup (list_keys s) "acc").isSome = true
      ∧ (dlookup (list_keys s) "pre").isSome = true
      ∧ (dlookup (list_keys s) "rej").isSome = true
      ∧ (dlookup (list_keys s) "den").isSome = true)
    ∧ (∀ k, dlookupD (list_keys s) k []
          = (s.filter (fun r => r.state == k)).map Row.minion_id)
    ∧ (∀ r ∈ s, (dlookup (list_keys s) r.state).isSome = true
        ∧ r.minion_id ∈ dlookupD (list_keys s) r.state []) := by
  refine ⟨⟨?_, ?_, ?_, ?_⟩, dlookupD_list_keys s, ?_⟩
  · exact (isSome_dlookup_list_keys s "acc").mpr (Or.inl (by decide))
  · exact (isSome_dlookup_list_keys s "pre").mpr (Or.inl (by decide))
  · exact (isSome_dlookup_list_keys s "rej").mpr (Or.inl (by decide))
  · exact (isSome_dlookup_list_keys s "den").mpr (Or.inl (by decide))
  · intro r hrm
    exact ⟨(isSome_dlookup_list_keys s r.state).mpr (Or.inr ⟨r, hrm, rfl⟩),
      row_mem_listing s r hrm⟩

/-- Witness for C10 at a store holding a row with the unknown state
"weird". -/
theorem c10_listing_shape_witness :
    (dlookup (list_keys [(⟨"m", "k", "zmq", "weird"⟩ : Row)]) "weird").isSome = true
    ∧ "m" ∈ dlookupD (list_keys [(⟨"m", "k", "zmq", "weird"⟩ : Row)]) "weird" [] :=
  (c10_listing_shape [⟨"m", "k", "zmq", "weird"⟩]).2.2 ⟨"m", "k", "zmq", "weird"⟩
    (List.mem_cons_self _ _)
